import Mathlib

/-!
Shallow embedding of the decision-tree induction engine and random-forest
ensemble of the jsmlt repository (src/supervised/trees/decision-tree.js and
src/supervised/trees/random-forest.js).

Features are embedded as elements of a linear ordered field (instantiated at
ℚ for concrete evaluations), labels as integers.  The array helpers
(`unique`, `transpose`, `getShape`, `valueCounts`, elementwise sum and scale)
and the random sampler live in repository modules that are not part of the
sources at hand; they are modelled from the specification and from the array
module's test file, as marked on each definition.
-/

namespace Jsmlt

/-- Helper for `unique`: traverses the list keeping the values not seen
before, tracking the seen values in an accumulator. -/
def uniqueAux {β : Type} [DecidableEq β] (seen : List β) : List β → List β
  | [] => []
  | x :: xs =>
    if x ∈ seen then uniqueAux seen xs else x :: uniqueAux (x :: seen) xs

/-- Modelled from the spec: `Arrays.unique` (src/arrays, implementation not in
the sources) returns the distinct values of a sequence, keeping the first
occurrence of each value in order. -/
def unique {β : Type} [DecidableEq β] (l : List β) : List β :=
  uniqueAux [] l

/-- Modelled from the spec: `Arrays.getShape` (src/arrays, implementation not
in the sources) returns the dimensions of a matrix; the decision tree only
reads index 1, the number of columns of the first row. -/
def getShape {β : Type} (X : List (List β)) : List ℕ :=
  [X.length, X.headI.length]

/-- Modelled from the spec: `Arrays.transpose` (src/arrays, implementation not
in the sources); column j of the result collects entry j of every row. -/
def transpose {β : Type} [Zero β] (X : List (List β)) : List (List β) :=
  (List.range X.headI.length).map (fun j => X.map (fun row => row.getD j 0))

/-- Modelled from the spec: `Arrays.valueCounts` (src/arrays, implementation
not in the sources) returns the pairs (value, count) for the distinct values
of a sequence, in first-occurrence order.  Counts are embedded as integers so
that they can be compared with the -1 initial accumulator of the random
forest's vote. -/
def valueCounts (l : List ℤ) : List (ℤ × ℤ) :=
  (unique l).map (fun v => (v, (l.count v : ℤ)))

/-- Modelled from the spec: `Arrays.sum` (src/arrays, implementation not in
the sources) adds two vectors elementwise. -/
def arraySum {α : Type} [Add α] (a b : List α) : List α :=
  List.zipWith (fun x y => x + y) a b

/-- Modelled from the spec: `Arrays.scale` (src/arrays, implementation not in
the sources, behaviour fixed by src/arrays/test.js) multiplies every entry of
a vector by a constant. -/
def scale {α : Type} [Mul α] (l : List α) (c : α) : List α :=
  l.map (fun x => x * c)

/-- `gini` from src/supervised/trees/decision-tree.js (lines 121-127): sum of
`frac * (1 - frac)` over the distinct labels, where `frac` is the label's
empirical frequency. -/
def gini {α : Type} [LinearOrderedField α] (labels : List ℤ) : α :=
  (unique labels).foldl
    (fun r label =>
      let frac : α := (labels.count label : α) / (labels.length : α)
      r + frac * (1 - frac))
    0

/-- `entropy` from src/supervised/trees/decision-tree.js (lines 135-141): sum
of `-frac * ln frac` over the distinct labels. -/
noncomputable def entropy (labels : List ℤ) : ℝ :=
  (unique labels).foldl
    (fun r label =>
      let frac : ℝ := (labels.count label : ℝ) / (labels.length : ℝ)
      r - frac * Real.log frac)
    0

/-- `calculateWeightedImpurity` from src/supervised/trees/decision-tree.js
(lines 96-113): the impurity of each group is weighted by the group's share of
the total number of elements. -/
def calculateWeightedImpurity {α : Type} [LinearOrderedField α]
    (groups : List (List ℤ)) (impurityCallback : List ℤ → α) : α :=
  let impurities := groups.map impurityCallback
  let numElements : ℕ := (groups.map List.length).sum
  (impurities.zip groups).foldl
    (fun r p => r + p.1 * (p.2.length : α) / (numElements : α)) 0

theorem mem_uniqueAux {β : Type} [DecidableEq β] (a : β) :
    ∀ (l : List β) (seen : List β),
      a ∈ uniqueAux seen l ↔ a ∈ l ∧ a ∉ seen := by
  intro l
  induction l with
  | nil =>
    intro seen
    simp [uniqueAux]
  | cons x xs ih =>
    intro seen
    by_cases hx : x ∈ seen
    · rw [uniqueAux, if_pos hx, ih]
      constructor
      · rintro ⟨h1, h2⟩
        exact ⟨List.mem_cons_of_mem _ h1, h2⟩
      · rintro ⟨h1, h2⟩
        rcases List.mem_cons.1 h1 with rfl | h1
        · exact absurd hx h2
        · exact ⟨h1, h2⟩
    · rw [uniqueAux, if_neg hx]
      constructor
      · intro h
        rcases List.mem_cons.1 h with rfl | h
        · exact ⟨List.mem_cons_self _ _, hx⟩
        · have h2 := (ih (x :: seen)).1 h
          exact ⟨List.mem_cons_of_mem _ h2.1,
            fun hs => h2.2 (List.mem_cons_of_mem _ hs)⟩
      · rintro ⟨h1, h2⟩
        rcases List.mem_cons.1 h1 with rfl | h1
        · exact List.mem_cons_self _ _
        · by_cases hax : a = x
          · subst hax
            exact List.mem_cons_self _ _
          · refine List.mem_cons_of_mem _ ((ih (x :: seen)).2 ⟨h1, ?_⟩)
            simp [hax, h2]

theorem mem_unique {β : Type} [DecidableEq β] (l : List β) (a : β) :
    a ∈ unique l ↔ a ∈ l := by
  rw [unique, mem_uniqueAux]
  simp

theorem nodup_uniqueAux {β : Type} [DecidableEq β] :
    ∀ (l : List β) (seen : List β), (uniqueAux seen l).Nodup := by
  intro l
  induction l with
  | nil =>
    intro seen
    simp [uniqueAux]
  | cons x xs ih =>
    intro seen
    by_cases hx : x ∈ seen
    · rw [uniqueAux, if_pos hx]
      exact ih seen
    · rw [uniqueAux, if_neg hx, List.nodup_cons]
      refine ⟨fun hmem => ?_, ih _⟩
      exact ((mem_uniqueAux x xs (x :: seen)).1 hmem).2 (List.mem_cons_self _ _)

theorem nodup_unique {β : Type} [DecidableEq β] (l : List β) :
    (unique l).Nodup :=
  nodup_uniqueAux l []

theorem uniqueAux_eq_nil {β : Type} [DecidableEq β] :
    ∀ (l : List β) (seen : List β), (∀ y ∈ l, y ∈ seen) →
      uniqueAux seen l = [] := by
  intro l
  induction l with
  | nil =>
    intro seen _
    rfl
  | cons x xs ih =>
    intro seen hall
    rw [uniqueAux, if_pos (hall x (List.mem_cons_self _ _))]
    exact ih seen (fun y hy => hall y (List.mem_cons_of_mem _ hy))

theorem unique_all_eq {β : Type} [DecidableEq β] (l : List β) (v : β)
    (hne : l ≠ []) (hall : ∀ x ∈ l, x = v) : unique l = [v] := by
  match l with
  | [] => exact absurd rfl hne
  | x :: xs =>
    have hx : x = v := hall x (by simp)
    rw [unique, uniqueAux, if_neg (List.not_mem_nil x)]
    rw [uniqueAux_eq_nil xs [x]
      (fun y hy => by simp [hall y (List.mem_cons_of_mem _ hy), hx])]
    rw [hx]

theorem nodup_pair_eq {β : Type} (u : List β) (a b : β) (hab : a ≠ b)
    (hnd : u.Nodup) (hmem : ∀ x, x ∈ u ↔ x = a ∨ x = b) :
    u = [a, b] ∨ u = [b, a] := by
  match u with
  | [] => exact absurd ((hmem a).2 (Or.inl rfl)) (List.not_mem_nil a)
  | [x] =>
    have hxa := (hmem a).2 (Or.inl rfl)
    have hxb := (hmem b).2 (Or.inr rfl)
    simp only [List.mem_singleton] at hxa hxb
    exact absurd (hxa.trans hxb.symm) hab
  | x :: y :: rest =>
    have hx := (hmem x).1 (by simp)
    have hy := (hmem y).1 (by simp)
    have hxy : x ≠ y := by
      intro h
      exact (List.nodup_cons.1 hnd).1 (by simp [h])
    have hrest : rest = [] := by
      match rest with
      | [] => rfl
      | z :: rest2 =>
        have hz := (hmem z).1 (by simp)
        have hxz : x ≠ z := by
          intro h
          exact (List.nodup_cons.1 hnd).1 (by simp [h])
        have hyz : y ≠ z := by
          intro h
          exact (List.nodup_cons.1 (List.nodup_cons.1 hnd).2).1 (by simp [h])
        rcases hx with rfl | rfl <;> rcases hy with rfl | rfl <;>
          rcases hz with rfl | rfl <;> simp_all
    subst hrest
    rcases hx with rfl | rfl <;> rcases hy with rfl | rfl
    · exact absurd rfl hxy
    · exact Or.inl rfl
    · exact Or.inr rfl
    · exact absurd rfl hxy

theorem length_eq_count_add_count (a b : ℤ) (hab : a ≠ b) :
    ∀ (l : List ℤ), (∀ x ∈ l, x = a ∨ x = b) →
      l.length = l.count a + l.count b := by
  intro l
  induction l with
  | nil => simp
  | cons x xs ih =>
    intro hall
    have hx := hall x (by simp)
    have ihh := ih (fun y hy => hall y (by simp [hy]))
    rcases hx with rfl | rfl
    · rw [List.count_cons_self, List.count_cons_of_ne (Ne.symm hab)]
      simp only [List.length_cons, ihh]
      omega
    · rw [List.count_cons_self, List.count_cons_of_ne hab]
      simp only [List.length_cons, ihh]
      omega

theorem calculateWeightedImpurity_singleton {α : Type} [LinearOrderedField α]
    (f : List ℤ → α) (g : List ℤ) (h : g ≠ []) :
    calculateWeightedImpurity [g] f = f g := by
  have hlen : (g.length : α) ≠ 0 :=
    Nat.cast_ne_zero.2 (fun h0 => h (List.length_eq_zero.1 h0))
  simp only [calculateWeightedImpurity, List.map_cons, List.map_nil,
    List.zip_cons_cons, List.zip_nil_right, List.foldl_cons, List.foldl_nil,
    List.sum_cons, List.sum_nil, Nat.add_zero]
  rw [mul_div_assoc, div_self hlen, mul_one, zero_add]

/-- C9: for every non-empty label group g and both impurity criteria, the
weighted impurity of the single-group list [g] equals the impurity of g
exactly. -/
theorem c9_weighted_singleton (g : List ℤ) (h : g ≠ []) :
    calculateWeightedImpurity [g] (gini (α := ℚ)) = gini g ∧
    calculateWeightedImpurity [g] entropy = entropy g :=
  ⟨calculateWeightedImpurity_singleton _ g h,
   calculateWeightedImpurity_singleton _ g h⟩

/-- C6: for every non-empty label group consisting of a single class, gini and
entropy both return 0; for every label group split evenly across exactly two
classes, gini returns 1/2 and entropy returns ln 2. -/
theorem c6_impurity_values :
    (∀ (l : List ℤ) (v : ℤ), l ≠ [] → (∀ x ∈ l, x = v) →
        gini (α := ℚ) l = 0 ∧ entropy l = 0) ∧
    (∀ (l : List ℤ) (a b : ℤ), a ≠ b → a ∈ l → b ∈ l →
        (∀ x ∈ l, x = a ∨ x = b) → l.count a = l.count b →
        gini (α := ℚ) l = 1 / 2 ∧ entropy l = Real.log 2) := by
  constructor
  · intro l v hne hall
    have hu := unique_all_eq l v hne hall
    have hcount : l.count v = l.length :=
      List.count_eq_length.2 (fun x hx => (hall x hx).symm)
    have hlen0 : l.length ≠ 0 := fun h0 => hne (List.length_eq_zero.1 h0)
    have hlenQ : (l.length : ℚ) ≠ 0 := Nat.cast_ne_zero.2 hlen0
    have hlenR : (l.length : ℝ) ≠ 0 := Nat.cast_ne_zero.2 hlen0
    constructor
    · simp only [gini, hu, List.foldl_cons, List.foldl_nil, hcount]
      rw [div_self hlenQ]
      ring
    · simp only [entropy, hu, List.foldl_cons, List.foldl_nil, hcount]
      rw [div_self hlenR, Real.log_one]
      ring
  · intro l a b hab ha hb hall hcc
    have hmem : ∀ x, x ∈ unique l ↔ x = a ∨ x = b := by
      intro x
      rw [mem_unique]
      exact ⟨hall x, by rintro (rfl | rfl) <;> assumption⟩
    have hu := nodup_pair_eq (unique l) a b hab (nodup_unique l) hmem
    have hca : 0 < l.count a := List.count_pos_iff.2 ha
    have hca0 : (l.count a : ℚ) ≠ 0 := Nat.cast_ne_zero.2 (Nat.pos_iff_ne_zero.1 hca)
    have hca0R : (l.count a : ℝ) ≠ 0 := Nat.cast_ne_zero.2 (Nat.pos_iff_ne_zero.1 hca)
    have hlen : l.length = l.count a + l.count b :=
      length_eq_count_add_count a b hab l hall
    have hlenQ : (l.length : ℚ) = 2 * (l.count a : ℚ) := by
      rw [hlen, ← hcc]
      push_cast
      ring
    have hlenR : (l.length : ℝ) = 2 * (l.count a : ℝ) := by
      rw [hlen, ← hcc]
      push_cast
      ring
    have hfa : (l.count a : ℚ) / (l.length : ℚ) = 1 / 2 := by
      rw [hlenQ]
      field_simp
      ring
    have hfb : (l.count b : ℚ) / (l.length : ℚ) = 1 / 2 := by
      rw [← hcc]
      exact hfa
    have hfaR : (l.count a : ℝ) / (l.length : ℝ) = 1 / 2 := by
      rw [hlenR]
      field_simp
      ring
    have hfbR : (l.count b : ℝ) / (l.length : ℝ) = 1 / 2 := by
      rw [← hcc]
      exact hfaR
    have hlog : Real.log (1 / 2) = -Real.log 2 := by
      rw [one_div, Real.log_inv]
    constructor
    · rcases hu with hu | hu <;>
        simp only [gini, hu, List.foldl_cons, List.foldl_nil, hfa, hfb] <;>
        norm_num
    · rcases hu with hu | hu <;>
        simp only [entropy, hu, List.foldl_cons, List.foldl_nil, hfaR, hfbR,
          hlog] <;>
        ring

/-- Witness for C6: evaluated at the groups [5] and [0, 1]. -/
theorem c6_impurity_values_witness :
    gini (α := ℚ) [(5 : ℤ)] = 0 ∧ entropy [(5 : ℤ)] = 0 ∧
    gini (α := ℚ) [(0 : ℤ), 1] = 1 / 2 ∧ entropy [(0 : ℤ), 1] = Real.log 2 := by
  refine ⟨?_, ?_, ?_, ?_⟩
  · exact (c6_impurity_values.1 [(5 : ℤ)] 5 (by decide) (by decide)).1
  · exact (c6_impurity_values.1 [(5 : ℤ)] 5 (by decide) (by decide)).2
  · exact (c6_impurity_values.2 [(0 : ℤ), 1] 0 1 (by decide) (by decide)
      (by decide) (by decide) (by decide)).1
  · exact (c6_impurity_values.2 [(0 : ℤ), 1] 0 1 (by decide) (by decide)
      (by decide) (by decide) (by decide)).2

/-- Witness for C9 at the concrete group [3]. -/
theorem c9_weighted_singleton_witness :
    calculateWeightedImpurity [[(3 : ℤ)]] (gini (α := ℚ)) = gini [(3 : ℤ)] ∧
    calculateWeightedImpurity [[(3 : ℤ)]] entropy = entropy [(3 : ℤ)] :=
  c9_weighted_singleton [(3 : ℤ)] (by decide)

/-- `DataSplitGroups` from src/supervised/trees/decision-tree.js (lines 6-14):
for both groups, the indices, features and labels of the samples assigned to
the group.  The JS two-element arrays are embedded as pairs. -/
structure DataSplitGroups (α : Type) where
  indices : List ℕ × List ℕ
  features : List (List α) × List (List α)
  labels : List ℤ × List ℤ
deriving DecidableEq

/-- `DataSplit` from src/supervised/trees/decision-tree.js (lines 16-21). -/
structure DataSplit (α : Type) where
  feature : ℕ
  featureValue : α
  groups : DataSplitGroups α
deriving DecidableEq

/-- `splitSamples` from src/supervised/trees/decision-tree.js (lines 154-176):
samples whose value at feature `fInd` is strictly below the split value go to
the left (first) group, the others to the right (second) group, preserving
sample order. -/
def splitSamples {α : Type} [LinearOrderedField α] (XSub : List (List α))
    (ySub : List ℤ) (fInd : ℕ) (splitValue : α) : DataSplitGroups α :=
  let tagged := XSub.enum
  let goesLeft : ℕ × List α → Bool := fun p => decide (p.2.getD fInd 0 < splitValue)
  let leftT := tagged.filter goesLeft
  let rightT := tagged.filter (fun p => !goesLeft p)
  { indices := (leftT.map Prod.fst, rightT.map Prod.fst)
    features := (leftT.map Prod.snd, rightT.map Prod.snd)
    labels := (leftT.map (fun p => ySub.getD p.1 0),
               rightT.map (fun p => ySub.getD p.1 0)) }

/-- The unique sorted sample values of one feature column, from
src/supervised/trees/decision-tree.js (lines 208-209).  The JS comparator
`(a > b) * 2 - 1` sorts distinct values ascending. -/
def sortedUniqueValues {α : Type} [LinearOrderedField α] (column : List α) :
    List α :=
  List.insertionSort (fun a b => a ≤ b) (unique column)

/-- The candidate split values of one feature, from
src/supervised/trees/decision-tree.js (lines 212-218): the elementwise sum of
the sorted unique values without their first element and without their last
element, scaled by one half. -/
def splitValuesOf {α : Type} [LinearOrderedField α] (sampleValues : List α) :
    List α :=
  scale (arraySum (sampleValues.drop 1) (sampleValues.dropLast)) (1 / 2)

/-- One candidate evaluation of `findSplit`, from
src/supervised/trees/decision-tree.js (lines 221-238).  The accumulator holds
the best split found so far together with its gain; the JS initial best gain
of -Infinity is embedded as the `none` state (every finite gain exceeds it). -/
def splitStep {α : Type} [LinearOrderedField α] (imp : List ℤ → α)
    (XSub : List (List α)) (ySub : List ℤ) (baseImpurity : α) (fInd : ℕ)
    (best : Option (DataSplit α × α)) (splitValue : α) :
    Option (DataSplit α × α) :=
  let groups := splitSamples XSub ySub fInd splitValue
  let impurity := calculateWeightedImpurity [groups.labels.1, groups.labels.2] imp
  let gain := baseImpurity - impurity
  let isBetter : Bool :=
    match best with
    | none => true
    | some b => decide (b.2 < gain)
  if isBetter ∧ 0 < groups.features.1.length ∧ 0 < groups.features.2.length then
    some (⟨fInd, splitValue, groups⟩, gain)
  else
    best

/-- `findSplit` from src/supervised/trees/decision-tree.js (lines 186-246).
The random sampler is threaded as an explicit function parameter; the fields
of the JS return value are all undefined when no candidate was accepted, which
is embedded as `none`. -/
def findSplit {α : Type} [LinearOrderedField α] (imp : List ℤ → α)
    (sample : List ℕ → ℕ → Bool → List ℕ) (numFeaturesInt : ℕ)
    (XSub : List (List α)) (ySub : List ℤ) (baseImpurity : α) :
    Option (DataSplit α) :=
  let shape := getShape XSub
  let XSubT := transpose XSub
  let possibleIndices := List.range (shape.getD 1 0)
  let fIndices := sample possibleIndices numFeaturesInt false
  (fIndices.foldl
    (fun best fInd =>
      (splitValuesOf (sortedUniqueValues (XSubT.getD fInd []))).foldl
        (splitStep imp XSub ySub baseImpurity fInd) best)
    none).map Prod.fst

/-- `DecisionTreeNode` from src/supervised/trees/decision-tree.js: a leaf
holds its impurity and prediction, an internal node its impurity, splitting
feature, split value and the two children. -/
inductive DecisionTreeNode (α : Type) where
  | leaf (impurity : α) (prediction : ℤ)
  | node (impurity : α) (feature : ℕ) (featureValue : α)
      (left right : DecisionTreeNode α)
deriving DecidableEq

/-- The majority-label rule of src/supervised/trees/decision-tree.js (line
275): JS `reduce` without an initial value starts from the first count pair.
The JS code throws on an empty list; that case is unreachable from `buildTree`
and is mapped to the junk value 0. -/
def majorityLabel (ySub : List ℤ) : ℤ :=
  match valueCounts ySub with
  | [] => 0
  | c :: rest => (rest.foldl (fun r x => if r.2 < x.2 then x else r) c).1

/-- Errors of the embedded train/predict operations, per the spec's error
taxonomy: a feature/label length mismatch or a prediction on an untrained
model.  `noSplit` embeds the TypeError the JS `buildTree` throws when
`findSplit` found no valid split (it dereferences the undefined `groups`);
`outOfFuel` is an artifact of the fuel-based embedding of the recursion and
is never returned for the fuel `train` supplies. -/
inductive TreeError where
  | dimensionMismatch
  | untrainedModel
  | noSplit
  | outOfFuel
deriving DecidableEq

instance {ε σ : Type} [DecidableEq ε] [DecidableEq σ] :
    DecidableEq (Except ε σ) := fun a b =>
  match a, b with
  | .error e1, .error e2 =>
    if h : e1 = e2 then .isTrue (by rw [h]) else .isFalse (by simp [h])
  | .error _, .ok _ => .isFalse (by simp)
  | .ok _, .error _ => .isFalse (by simp)
  | .ok v1, .ok v2 =>
    if h : v1 = v2 then .isTrue (by rw [h]) else .isFalse (by simp [h])

/-- `buildTree` from src/supervised/trees/decision-tree.js (lines 256-290).
The JS recursion terminates because every accepted split has two non-empty
groups; the embedding makes this explicit with a fuel parameter, and `train`
supplies fuel `X.length + 1`, which never runs out
(`buildTree_no_fuel_exhaustion`). -/
def buildTree {α : Type} [LinearOrderedField α] (imp : List ℤ → α)
    (sample : List ℕ → ℕ → Bool → List ℕ) (numFeaturesInt : ℕ) (maxDepth : ℤ) :
    ℕ → List (List α) → List ℤ → ℕ → Except TreeError (DecisionTreeNode α)
  | 0, _, _, _ => .error .outOfFuel
  | fuel + 1, XSub, ySub, depth =>
    let impurity := calculateWeightedImpurity [ySub] imp
    if impurity = 0 then
      .ok (.leaf impurity (ySub.headI))
    else if 0 ≤ maxDepth ∧ maxDepth ≤ (depth : ℤ) then
      .ok (.leaf impurity (majorityLabel ySub))
    else
      match findSplit imp sample numFeaturesInt XSub ySub impurity with
      | none => .error .noSplit
      | some s =>
        match buildTree imp sample numFeaturesInt maxDepth fuel
            s.groups.features.1 s.groups.labels.1 (depth + 1) with
        | .error e => .error e
        | .ok leftNode =>
          match buildTree imp sample numFeaturesInt maxDepth fuel
              s.groups.features.2 s.groups.labels.2 (depth + 1) with
          | .error e => .error e
          | .ok rightNode =>
            .ok (.node impurity s.feature s.featureValue leftNode rightNode)

/-- The `numFeatures` configuration option of both learners: the strings
`sqrt` and `log2`, or a numeric fraction. -/
inductive NumFeaturesOpt where
  | sqrt
  | log2
  | frac (fraction : ℚ)
deriving DecidableEq

/-- The per-node feature-subsample count resolved by `train`
(src/supervised/trees/decision-tree.js lines 303-312).  For a natural number
n, `Math.floor(Math.sqrt(n))` is `Nat.sqrt n` and `Math.floor(Math.log2(n))`
is `Nat.log 2 n`; the numeric branch is
`Math.max(1, Math.min(n, Math.floor(fraction * n)))`. -/
def resolveNumFeatures (numFeatures : NumFeaturesOpt) (n : ℕ) : ℕ :=
  match numFeatures with
  | .sqrt => Nat.sqrt n
  | .log2 => Nat.log 2 n
  | .frac fraction => (max 1 (min (n : ℤ) ⌊fraction * (n : ℚ)⌋)).toNat

/-- The `DecisionTree` class of src/supervised/trees/decision-tree.js.  The JS
`criterion` option is a string dispatched to `gini` or `entropy` inside
`calculateImpurity`; the embedding stores the selected impurity callback
directly.  Before training, `tree` is undefined (`none`) and
`numFeaturesInt` is undefined (junk 0). -/
structure DecisionTree (α : Type) where
  criterion : List ℤ → α
  numFeatures : NumFeaturesOpt
  maxDepth : ℤ
  tree : Option (DecisionTreeNode α) := none
  numFeaturesInt : ℕ := 0

/-- `DecisionTree.train` (lines 295-316).  Mutation is made explicit: the
returned model is the state of `this` when the call returns or throws, and
the second component is the thrown error, if any.  On a length mismatch the
method throws before any assignment. -/
def DecisionTree.train {α : Type} [LinearOrderedField α] (m : DecisionTree α)
    (sample : List ℕ → ℕ → Bool → List ℕ) (X : List (List α)) (y : List ℤ) :
    DecisionTree α × Option TreeError :=
  if X.length ≠ y.length then
    (m, some .dimensionMismatch)
  else
    let shape := getShape X
    let nfInt := resolveNumFeatures m.numFeatures (shape.getD 1 0)
    let m1 := { m with numFeaturesInt := nfInt }
    match buildTree m.criterion sample nfInt m.maxDepth (X.length + 1) X y 0 with
    | .error e => (m1, some e)
    | .ok t => ({ m1 with tree := some t }, none)

/-- The leaf-finding loop of `DecisionTree.predictSample` (lines 341-343). -/
def walkTree {α : Type} [LinearOrderedField α] :
    DecisionTreeNode α → List α → ℤ
  | .leaf _ prediction, _ => prediction
  | .node _ feature featureValue left right, x =>
    if x.getD feature 0 < featureValue then walkTree left x else walkTree right x

/-- `DecisionTree.predictSample` (lines 338-346).  Called on an untrained
model the JS loop throws a TypeError; that unreachable case is mapped to the
junk value 0. -/
def DecisionTree.predictSample {α : Type} [LinearOrderedField α]
    (m : DecisionTree α) (x : List α) : ℤ :=
  match m.tree with
  | none => 0
  | some t => walkTree t x

/-- `DecisionTree.predict` (lines 321-330). -/
def DecisionTree.predict {α : Type} [LinearOrderedField α] (m : DecisionTree α)
    (X : List (List α)) : Except TreeError (List ℤ) :=
  match m.tree with
  | none => .error .untrainedModel
  | some _ => .ok (X.map (fun x => m.predictSample x))

/-- The `RandomForest` class of src/supervised/trees/random-forest.js; the
`criterion` string is embedded as the selected impurity callback, as for
`DecisionTree`.  Before training, `trees` is undefined (`none`). -/
structure RandomForest (α : Type) where
  criterion : List ℤ → α
  numFeatures : NumFeaturesOpt
  maxDepth : ℤ
  numTrees : ℕ
  bootstrap : Bool
  trees : Option (List (DecisionTree α)) := none

/-- The tree-construction loop of `RandomForest.train` (lines 71-98),
recursing over the number of trees still to build.  A tree whose training
throws aborts the loop: the trees pushed so far are kept and the error is
reported. -/
def RandomForest.trainTrees {α : Type} [LinearOrderedField α]
    (criterion : List ℤ → α) (numFeatures : NumFeaturesOpt) (maxDepth : ℤ)
    (bootstrap : Bool) (sample : List ℕ → ℕ → Bool → List ℕ)
    (X : List (List α)) (y : List ℤ) :
    ℕ → List (DecisionTree α) × Option TreeError
  | 0 => ([], none)
  | k + 1 =>
    let tree : DecisionTree α :=
      { criterion := criterion, numFeatures := numFeatures, maxDepth := maxDepth }
    let data : List (List α) × List ℤ :=
      if bootstrap then
        let treeSamples := sample (List.range X.length) X.length true
        (treeSamples.map (fun i => X.getD i []),
         treeSamples.map (fun i => y.getD i 0))
      else
        (X, y)
    match DecisionTree.train tree sample data.1 data.2 with
    | (t2, none) =>
      let rest := RandomForest.trainTrees criterion numFeatures maxDepth
        bootstrap sample X y k
      (t2 :: rest.1, rest.2)
    | (_, some e) => ([], some e)

/-- `RandomForest.train` (lines 60-99), with mutation made explicit as for
`DecisionTree.train`.  On a length mismatch the method throws before any
assignment; otherwise `this.trees` is replaced by the list the loop built,
complete or partial. -/
def RandomForest.train {α : Type} [LinearOrderedField α] (m : RandomForest α)
    (sample : List ℕ → ℕ → Bool → List ℕ) (X : List (List α)) (y : List ℤ) :
    RandomForest α × Option TreeError :=
  if X.length ≠ y.length then
    (m, some .dimensionMismatch)
  else
    let result := RandomForest.trainTrees m.criterion m.numFeatures m.maxDepth
      m.bootstrap sample X y m.numTrees
    ({ m with trees := some result.1 }, result.2)

/-- The vote of `RandomForest.predictSample` (lines 126-129): the first label
whose count exceeds every earlier count, starting from the JS initial
accumulator [-1, -1]. -/
def voteLabel (predictions : List ℤ) : ℤ :=
  ((valueCounts predictions).foldl
    (fun r x => if r.2 < x.2 then x else r) (-1, -1)).1

/-- `RandomForest.predictSample` (lines 121-130): majority vote over the
member trees' predictions.  Called on an untrained forest the JS code throws;
that unreachable case reads the junk empty tree list. -/
def RandomForest.predictSample {α : Type} [LinearOrderedField α]
    (m : RandomForest α) (x : List α) : ℤ :=
  voteLabel ((m.trees.getD []).map (fun t => t.predictSample x))

/-- `RandomForest.predict` (lines 104-113). -/
def RandomForest.predict {α : Type} [LinearOrderedField α] (m : RandomForest α)
    (X : List (List α)) : Except TreeError (List ℤ) :=
  match m.trees with
  | none => .error .untrainedModel
  | some _ => .ok (X.map (fun x => m.predictSample x))

/-- Modelled from the spec: `Random.sample(population, count, withReplacement)`
(src/random, implementation not in the sources) draws `count` elements from
the population.  The embedding threads the sampler through train as an
explicit function parameter; this deterministic instance, returning the first
`count` elements, realises one admissible draw and is used for concrete
evaluations. -/
def sampleTake (population : List ℕ) (count : ℕ) (withReplacement : Bool) :
    List ℕ :=
  population.take count

/-- A successful `DecisionTree.train` always stores a tree. -/
theorem DecisionTree.train_ok_tree {α : Type} [LinearOrderedField α]
    (m m2 : DecisionTree α) (sample : List ℕ → ℕ → Bool → List ℕ)
    (X : List (List α)) (y : List ℤ)
    (h : DecisionTree.train m sample X y = (m2, none)) :
    ∃ t, m2.tree = some t := by
  simp only [DecisionTree.train] at h
  split at h
  · exact absurd (congrArg Prod.snd h) (by simp)
  · split at h
    · exact absurd (congrArg Prod.snd h) (by simp)
    · rename_i t ht
      injection h with h1 h2
      exact ⟨t, by rw [← h1]⟩

/-- A successful `RandomForest.train` always stores a tree list. -/
theorem RandomForest.train_ok_trees {α : Type} [LinearOrderedField α]
    (m m2 : RandomForest α) (sample : List ℕ → ℕ → Bool → List ℕ)
    (X : List (List α)) (y : List ℤ)
    (h : RandomForest.train m sample X y = (m2, none)) :
    ∃ ts, m2.trees = some ts := by
  simp only [RandomForest.train] at h
  split at h
  · exact absurd (congrArg Prod.snd h) (by simp)
  · injection h with h1 h2
    exact ⟨_, by rw [← h1]⟩

/-- A vote over the predictions of a single tree returns that tree's
prediction. -/
theorem voteLabel_singleton (p : ℤ) : voteLabel [p] = p := by
  have h1 : unique [p] = [p] := by
    simp [unique, uniqueAux]
  simp only [voteLabel, valueCounts, h1, List.map_cons, List.map_nil,
    List.count_cons_self, List.count_nil, List.foldl_cons, List.foldl_nil]
  norm_num

/-- One unfolding step of the random forest's tree-construction loop with
bootstrapping disabled, stated without let bindings for rewriting. -/
theorem RandomForest.trainTrees_false_succ {α : Type} [LinearOrderedField α]
    (criterion : List ℤ → α) (nfo : NumFeaturesOpt) (md : ℤ)
    (sample : List ℕ → ℕ → Bool → List ℕ) (X : List (List α)) (y : List ℤ)
    (k : ℕ) :
    RandomForest.trainTrees criterion nfo md false sample X y (k + 1) =
      match DecisionTree.train (⟨criterion, nfo, md, none, 0⟩ : DecisionTree α)
          sample X y with
      | (t2, none) =>
        (t2 :: (RandomForest.trainTrees criterion nfo md false sample X y k).1,
         (RandomForest.trainTrees criterion nfo md false sample X y k).2)
      | (_, some e) => ([], some e) := rfl

/-- C7: a RandomForest with numTrees = 1 and bootstrap = false trained on a
dataset stores exactly the DecisionTree trained with the same criterion,
numFeatures and maxDepth on the same data (given the same random
feature-subsample draws), and its predictions agree with that tree's
predictions on every query. -/
theorem c7_forest_singleton_equiv {α : Type} [LinearOrderedField α]
    (criterion : List ℤ → α) (nfo : NumFeaturesOpt) (md : ℤ)
    (sample : List ℕ → ℕ → Bool → List ℕ) (X : List (List α)) (y : List ℤ)
    (dt2 : DecisionTree α)
    (h : DecisionTree.train (⟨criterion, nfo, md, none, 0⟩ : DecisionTree α)
        sample X y = (dt2, none)) :
    RandomForest.train (⟨criterion, nfo, md, 1, false, none⟩ : RandomForest α)
        sample X y = (⟨criterion, nfo, md, 1, false, some [dt2]⟩, none) ∧
    ∀ Xq, RandomForest.predict
        (⟨criterion, nfo, md, 1, false, some [dt2]⟩ : RandomForest α) Xq =
      DecisionTree.predict dt2 Xq := by
  have hlen : ¬ X.length ≠ y.length := by
    intro hne
    have h2 : DecisionTree.train
        (⟨criterion, nfo, md, none, 0⟩ : DecisionTree α) sample X y =
        (⟨criterion, nfo, md, none, 0⟩, some .dimensionMismatch) := by
      simp only [DecisionTree.train, if_pos hne]
    have h3 := h.symm.trans h2
    exact absurd (congrArg Prod.snd h3) (by simp)
  constructor
  · simp only [RandomForest.train, if_neg hlen]
    rw [show (1 : ℕ) = 0 + 1 from rfl, RandomForest.trainTrees_false_succ, h]
    rfl
  · obtain ⟨t, ht⟩ := DecisionTree.train_ok_tree _ _ _ _ _ h
    intro Xq
    simp only [RandomForest.predict, DecisionTree.predict, ht]
    refine congrArg Except.ok (List.map_congr_left fun x _ => ?_)
    simp [RandomForest.predictSample, voteLabel_singleton]

unseal Rat.add Rat.mul Rat.inv Rat.sub in
/-- Witness for C7: one-sample dataset, deterministic sampler. -/
theorem c7_forest_singleton_equiv_witness :
    RandomForest.train
        (⟨gini, NumFeaturesOpt.frac 1, -1, 1, false, none⟩ : RandomForest ℚ)
        sampleTake [[0]] [0] =
      (⟨gini, NumFeaturesOpt.frac 1, -1, 1, false,
          some [⟨gini, NumFeaturesOpt.frac 1, -1, some (.leaf 0 0), 1⟩]⟩,
        none) ∧
    RandomForest.predict
        (⟨gini, NumFeaturesOpt.frac 1, -1, 1, false,
            some [⟨gini, NumFeaturesOpt.frac 1, -1, some (.leaf 0 0), 1⟩]⟩ :
          RandomForest ℚ) [[7]] =
      DecisionTree.predict
        (⟨gini, NumFeaturesOpt.frac 1, -1, some (.leaf 0 0), 1⟩ :
          DecisionTree ℚ) [[7]] :=
  ⟨(c7_forest_singleton_equiv gini (NumFeaturesOpt.frac 1) (-1) sampleTake
      [[0]] [0] ⟨gini, NumFeaturesOpt.frac 1, -1, some (.leaf 0 0), 1⟩
      (by rfl)).1,
   (c7_forest_singleton_equiv gini (NumFeaturesOpt.frac 1) (-1) sampleTake
      [[0]] [0] ⟨gini, NumFeaturesOpt.frac 1, -1, some (.leaf 0 0), 1⟩
      (by rfl)).2 [[7]]⟩

/-- C8: predict on an untrained DecisionTree or RandomForest raises the
untrained-model error; after a successful train call predict returns
predictions and no longer raises it. -/
theorem c8_untrained_predict {α : Type} [LinearOrderedField α] :
    (∀ (criterion : List ℤ → α) (nfo : NumFeaturesOpt) (md : ℤ)
        (X : List (List α)),
      DecisionTree.predict (⟨criterion, nfo, md, none, 0⟩ : DecisionTree α) X =
        .error .untrainedModel) ∧
    (∀ (criterion : List ℤ → α) (nfo : NumFeaturesOpt) (md : ℤ) (nt : ℕ)
        (bs : Bool) (X : List (List α)),
      RandomForest.predict
          (⟨criterion, nfo, md, nt, bs, none⟩ : RandomForest α) X =
        .error .untrainedModel) ∧
    (∀ (m m2 : DecisionTree α) (sample : List ℕ → ℕ → Bool → List ℕ)
        (X : List (List α)) (y : List ℤ),
      DecisionTree.train m sample X y = (m2, none) →
      ∀ Xq, ∃ ps, DecisionTree.predict m2 Xq = .ok ps) ∧
    (∀ (fm fm2 : RandomForest α) (sample : List ℕ → ℕ → Bool → List ℕ)
        (X : List (List α)) (y : List ℤ),
      RandomForest.train fm sample X y = (fm2, none) →
      ∀ Xq, ∃ ps, RandomForest.predict fm2 Xq = .ok ps) := by
  refine ⟨fun _ _ _ _ => rfl, fun _ _ _ _ _ _ => rfl, ?_, ?_⟩
  · intro m m2 sample X y h Xq
    obtain ⟨t, ht⟩ := DecisionTree.train_ok_tree _ _ _ _ _ h
    exact ⟨Xq.map (fun x => m2.predictSample x), by
      simp only [DecisionTree.predict, ht]⟩
  · intro fm fm2 sample X y h Xq
    obtain ⟨ts, ht⟩ := RandomForest.train_ok_trees _ _ _ _ _ h
    exact ⟨Xq.map (fun x => fm2.predictSample x), by
      simp only [RandomForest.predict, ht]⟩

unseal Rat.add Rat.mul Rat.inv Rat.sub in
/-- Witness for C8: untrained models raise, freshly trained models do not. -/
theorem c8_untrained_predict_witness :
    DecisionTree.predict
        (⟨gini, NumFeaturesOpt.frac 1, -1, none, 0⟩ : DecisionTree ℚ) [[1]] =
      .error .untrainedModel ∧
    RandomForest.predict
        (⟨gini, NumFeaturesOpt.frac 1, -1, 1, false, none⟩ : RandomForest ℚ)
        [[1]] = .error .untrainedModel ∧
    (∃ ps, DecisionTree.predict
        (⟨gini, NumFeaturesOpt.frac 1, -1, some (.leaf 0 0), 1⟩ :
          DecisionTree ℚ) [[1]] = .ok ps) ∧
    (∃ ps, RandomForest.predict
        (⟨gini, NumFeaturesOpt.frac 1, -1, 1, false,
            some [⟨gini, NumFeaturesOpt.frac 1, -1, some (.leaf 0 0), 1⟩]⟩ :
          RandomForest ℚ) [[1]] = .ok ps) :=
  ⟨c8_untrained_predict.1 gini (NumFeaturesOpt.frac 1) (-1) [[1]],
   c8_untrained_predict.2.1 gini (NumFeaturesOpt.frac 1) (-1) 1 false [[1]],
   c8_untrained_predict.2.2.1 ⟨gini, NumFeaturesOpt.frac 1, -1, none, 0⟩
     ⟨gini, NumFeaturesOpt.frac 1, -1, some (.leaf 0 0), 1⟩ sampleTake
     [[0]] [0] (by rfl) [[1]],
   c8_untrained_predict.2.2.2 ⟨gini, NumFeaturesOpt.frac 1, -1, 1, false, none⟩
     ⟨gini, NumFeaturesOpt.frac 1, -1, 1, false,
       some [⟨gini, NumFeaturesOpt.frac 1, -1, some (.leaf 0 0), 1⟩]⟩
     sampleTake [[0]] [0] (by rfl) [[1]]⟩

/-- C10: on a feature/label length mismatch both train methods throw the
dimension-mismatch error before modifying any model state: the returned model
is the original one and predictions are unchanged. -/
theorem c10_mismatch_preserves_state {α : Type} [LinearOrderedField α]
    (m : DecisionTree α) (fm : RandomForest α)
    (sample : List ℕ → ℕ → Bool → List ℕ) (X : List (List α)) (y : List ℤ)
    (h : X.length ≠ y.length) :
    DecisionTree.train m sample X y = (m, some .dimensionMismatch) ∧
    RandomForest.train fm sample X y = (fm, some .dimensionMismatch) ∧
    (∀ Xq, DecisionTree.predict (DecisionTree.train m sample X y).1 Xq =
      DecisionTree.predict m Xq) ∧
    (∀ Xq, RandomForest.predict (RandomForest.train fm sample X y).1 Xq =
      RandomForest.predict fm Xq) := by
  have h1 : DecisionTree.train m sample X y = (m, some .dimensionMismatch) := by
    simp only [DecisionTree.train, if_pos h]
  have h2 : RandomForest.train fm sample X y = (fm, some .dimensionMismatch) := by
    simp only [RandomForest.train, if_pos h]
  exact ⟨h1, h2, fun Xq => by rw [h1], fun Xq => by rw [h2]⟩

/-- Witness for C10 at a one-sample matrix with an empty label vector. -/
theorem c10_mismatch_preserves_state_witness :
    DecisionTree.train (⟨gini, NumFeaturesOpt.frac 1, -1, none, 0⟩ :
        DecisionTree ℚ) sampleTake [[1]] [] =
      (⟨gini, NumFeaturesOpt.frac 1, -1, none, 0⟩, some .dimensionMismatch) ∧
    RandomForest.train (⟨gini, NumFeaturesOpt.frac 1, -1, 1, false, none⟩ :
        RandomForest ℚ) sampleTake [[1]] [] =
      (⟨gini, NumFeaturesOpt.frac 1, -1, 1, false, none⟩,
        some .dimensionMismatch) :=
  ⟨(c10_mismatch_preserves_state ⟨gini, NumFeaturesOpt.frac 1, -1, none, 0⟩
      ⟨gini, NumFeaturesOpt.frac 1, -1, 1, false, none⟩ sampleTake [[1]] []
      (by decide)).1,
   (c10_mismatch_preserves_state ⟨gini, NumFeaturesOpt.frac 1, -1, none, 0⟩
      ⟨gini, NumFeaturesOpt.frac 1, -1, 1, false, none⟩ sampleTake [[1]] []
      (by decide)).2.1⟩

unseal Rat.mul in
/-- C2 counterexample: with the log2 option and a matrix with exactly one
feature, the resolved per-node feature-subsample count is 0, refuting "at
least 1, never 0"; and for the numeric fraction 2 with 2 features the code
resolves 2, not the claim's formula value max(1, floor(2 * 2)) = 4, because
the code additionally clamps with min(numFeatures, ...). -/
theorem c2_log2_zero_counterexample :
    (resolveNumFeatures NumFeaturesOpt.log2 1 = 0 ∧
      ¬ 1 ≤ resolveNumFeatures NumFeaturesOpt.log2 1) ∧
    resolveNumFeatures (NumFeaturesOpt.frac 2) 2 = 2 ∧
    resolveNumFeatures (NumFeaturesOpt.frac 2) 2 ≠ 4 := by
  have h : resolveNumFeatures NumFeaturesOpt.log2 1 = 0 := by
    simp [resolveNumFeatures, Nat.log_one_right]
  exact ⟨⟨h, by rw [h]; decide⟩, by decide, by decide⟩

/-- C2 (amended): on a matrix with at least one feature the resolved per-node
feature-subsample count is at least 1 for the sqrt option
(floor of the square root) and for a numeric fraction f (the code computes
max(1, min(numFeatures, floor(f * numFeatures)))); for the log2 option it is
floor(log2(numFeatures)), which is at least 1 exactly when there are at least
2 features, and is 0 for a single feature. -/
theorem c2_feature_count_amended (n : ℕ) (q : ℚ) (h : 1 ≤ n) :
    1 ≤ resolveNumFeatures NumFeaturesOpt.sqrt n ∧
    1 ≤ resolveNumFeatures (NumFeaturesOpt.frac q) n ∧
    (1 ≤ resolveNumFeatures NumFeaturesOpt.log2 n ↔ 2 ≤ n) := by
  refine ⟨?_, ?_, ?_, ?_⟩
  · exact Nat.sqrt_pos.2 h
  · show 1 ≤ (max 1 (min (n : ℤ) ⌊q * (n : ℚ)⌋)).toNat
    have h1 : (1 : ℤ) ≤ max 1 (min (n : ℤ) ⌊q * (n : ℚ)⌋) := le_max_left _ _
    omega
  · intro h1
    by_contra h2
    have h3 : n < 2 := by omega
    have h4 : Nat.log 2 n = 0 := Nat.log_eq_zero_iff.2 (Or.inl h3)
    have h5 : 1 ≤ Nat.log 2 n := h1
    omega
  · intro h2
    exact Nat.log_pos (by norm_num) h2

/-- Witness for C2 (amended) at n = 4, q = 1/2. -/
theorem c2_feature_count_amended_witness :
    1 ≤ (4 : ℕ) ∧
    (1 ≤ resolveNumFeatures NumFeaturesOpt.sqrt 4 ∧
     1 ≤ resolveNumFeatures (NumFeaturesOpt.frac (1 / 2)) 4 ∧
     (1 ≤ resolveNumFeatures NumFeaturesOpt.log2 4 ↔ 2 ≤ 4)) :=
  ⟨by decide, c2_feature_count_amended 4 (1 / 2) (by decide)⟩

unseal Rat.add Rat.mul Rat.inv Rat.sub in
/-- C1: at the failing input X = [[0], [0]], y = [0, 1] (criterion gini,
unbounded depth) the node impurity is nonzero, the depth limit does not
apply, the Splitter finds no valid split, and `buildTree` does not return the
majority-label leaf the spec requires: it propagates the TypeError the JS
code throws when dereferencing the undefined groups (embedded as the
`noSplit` error), which `train` surfaces. -/
theorem c1_no_split_crash :
    calculateWeightedImpurity [[(0 : ℤ), 1]] (gini (α := ℚ)) ≠ 0 ∧
    findSplit (gini (α := ℚ)) sampleTake 1 [[(0 : ℚ)], [0]] [0, 1]
      (calculateWeightedImpurity [[(0 : ℤ), 1]] (gini (α := ℚ))) = none ∧
    buildTree (gini (α := ℚ)) sampleTake 1 (-1) 3 [[(0 : ℚ)], [0]] [0, 1] 0 =
      .error .noSplit ∧
    (DecisionTree.train
        (⟨gini, NumFeaturesOpt.frac 1, -1, none, 0⟩ : DecisionTree ℚ)
        sampleTake [[(0 : ℚ)], [0]] [0, 1]).2 = some TreeError.noSplit := by
  refine ⟨by decide, by decide, by decide, by decide⟩

/-- One unfolding step of `buildTree` at positive fuel, stated without let
bindings so that it can be used for rewriting. -/
theorem buildTree_step {α : Type} [LinearOrderedField α] (imp : List ℤ → α)
    (sample : List ℕ → ℕ → Bool → List ℕ) (nf : ℕ) (md : ℤ) (fuel : ℕ)
    (X : List (List α)) (y : List ℤ) (d : ℕ) :
    buildTree imp sample nf md (fuel + 1) X y d =
      if calculateWeightedImpurity [y] imp = 0 then
        .ok (.leaf (calculateWeightedImpurity [y] imp) y.headI)
      else if 0 ≤ md ∧ md ≤ (d : ℤ) then
        .ok (.leaf (calculateWeightedImpurity [y] imp) (majorityLabel y))
      else
        match findSplit imp sample nf X y (calculateWeightedImpurity [y] imp) with
        | none => .error .noSplit
        | some s =>
          match buildTree imp sample nf md fuel
              s.groups.features.1 s.groups.labels.1 (d + 1) with
          | .error e => .error e
          | .ok leftNode =>
            match buildTree imp sample nf md fuel
                s.groups.features.2 s.groups.labels.2 (d + 1) with
            | .error e => .error e
            | .ok rightNode =>
              .ok (.node (calculateWeightedImpurity [y] imp) s.feature
                s.featureValue leftNode rightNode) := rfl

/-- Composition rule for one internal node: when the impurity is nonzero, the
depth limit does not bite, the Splitter returns a split and both child calls
succeed, `buildTree` returns the internal node built from them. -/
theorem buildTree_eq_of_split {α : Type} [LinearOrderedField α]
    (imp : List ℤ → α) (sample : List ℕ → ℕ → Bool → List ℕ) (nf : ℕ)
    (md : ℤ) (fuel : ℕ) (X : List (List α)) (y : List ℤ) (d : ℕ)
    (s : DataSplit α) (tl tr : DecisionTreeNode α)
    (h0 : ¬ calculateWeightedImpurity [y] imp = 0)
    (h1 : ¬ (0 ≤ md ∧ md ≤ (d : ℤ)))
    (hs : findSplit imp sample nf X y (calculateWeightedImpurity [y] imp) = some s)
    (hl : buildTree imp sample nf md fuel
        s.groups.features.1 s.groups.labels.1 (d + 1) = .ok tl)
    (hr : buildTree imp sample nf md fuel
        s.groups.features.2 s.groups.labels.2 (d + 1) = .ok tr) :
    buildTree imp sample nf md (fuel + 1) X y d =
      .ok (.node (calculateWeightedImpurity [y] imp) s.feature s.featureValue
        tl tr) := by
  rw [buildTree_step, if_neg h0, if_neg h1]
  simp only [hs, hl, hr]

/-- `findSplit` only reads the sampler at the feature-index draw, so two
samplers that agree on that draw produce the same split. -/
theorem findSplit_eq_of_sample {α : Type} [LinearOrderedField α]
    (imp : List ℤ → α) (s1 s2 : List ℕ → ℕ → Bool → List ℕ) (nf : ℕ)
    (X : List (List α)) (y : List ℤ) (base : α)
    (h : s1 (List.range ((getShape X).getD 1 0)) nf false =
         s2 (List.range ((getShape X).getD 1 0)) nf false) :
    findSplit imp s1 nf X y base = findSplit imp s2 nf X y base := by
  simp only [findSplit]
  rw [h]

/-- `DecisionTree.train` on matching lengths stores the resolved feature
count and the tree returned by `buildTree`. -/
theorem DecisionTree.train_eq_of_buildTree {α : Type} [LinearOrderedField α]
    (m : DecisionTree α) (sample : List ℕ → ℕ → Bool → List ℕ)
    (X : List (List α)) (y : List ℤ) (t : DecisionTreeNode α)
    (hlen : X.length = y.length)
    (hbt : buildTree m.criterion sample
        (resolveNumFeatures m.numFeatures ((getShape X).getD 1 0)) m.maxDepth
        (X.length + 1) X y 0 = .ok t) :
    DecisionTree.train m sample X y =
      ({ m with
          numFeaturesInt := resolveNumFeatures m.numFeatures ((getShape X).getD 1 0),
          tree := some t }, none) := by
  have hc : ¬ X.length ≠ y.length := by omega
  simp only [DecisionTree.train, if_neg hc, hbt]

theorem splitSamples_length {α : Type} [LinearOrderedField α]
    (XSub : List (List α)) (ySub : List ℤ) (fInd : ℕ) (splitValue : α) :
    (splitSamples XSub ySub fInd splitValue).features.1.length +
      (splitSamples XSub ySub fInd splitValue).features.2.length =
      XSub.length := by
  simp only [splitSamples, List.length_map]
  rw [← List.length_eq_length_filter_add, List.enum_length]

theorem foldl_preserve {σ β : Type} (P : σ → Prop) (f : σ → β → σ)
    (hstep : ∀ s b, P s → P (f s b)) (l : List β) (s0 : σ) (h0 : P s0) :
    P (l.foldl f s0) := by
  induction l generalizing s0 with
  | nil => exact h0
  | cons x xs ih => exact ih _ (hstep _ _ h0)

/-- Any split accepted by `splitStep` passed the empty-group guard and
partitions the samples. -/
theorem splitStep_preserve {α : Type} [LinearOrderedField α] (imp : List ℤ → α)
    (X : List (List α)) (y : List ℤ) (base : α) (fInd : ℕ)
    (best : Option (DataSplit α × α)) (v : α)
    (h : ∀ q : DataSplit α × α, best = some q →
      0 < q.1.groups.features.1.length ∧ 0 < q.1.groups.features.2.length ∧
      q.1.groups.features.1.length + q.1.groups.features.2.length = X.length) :
    ∀ q : DataSplit α × α, splitStep imp X y base fInd best v = some q →
      0 < q.1.groups.features.1.length ∧ 0 < q.1.groups.features.2.length ∧
      q.1.groups.features.1.length + q.1.groups.features.2.length = X.length := by
  intro q hq
  simp only [splitStep] at hq
  split at hq
  · rename_i hcond
    injection hq with hq2
    subst hq2
    exact ⟨hcond.2.1, hcond.2.2, splitSamples_length X y fInd v⟩
  · exact h q hq

/-- Every split returned by `findSplit` has two non-empty groups that
partition the node's samples. -/
theorem findSplit_some_spec {α : Type} [LinearOrderedField α]
    (imp : List ℤ → α) (sample : List ℕ → ℕ → Bool → List ℕ) (nf : ℕ)
    (X : List (List α)) (y : List ℤ) (base : α) (s : DataSplit α)
    (h : findSplit imp sample nf X y base = some s) :
    0 < s.groups.features.1.length ∧ 0 < s.groups.features.2.length ∧
    s.groups.features.1.length + s.groups.features.2.length = X.length := by
  simp only [findSplit] at h
  rw [Option.map_eq_some'] at h
  obtain ⟨p, hp, rfl⟩ := h
  refine foldl_preserve
    (fun st => ∀ q : DataSplit α × α, st = some q →
      0 < q.1.groups.features.1.length ∧ 0 < q.1.groups.features.2.length ∧
      q.1.groups.features.1.length + q.1.groups.features.2.length = X.length)
    _ ?_ _ none (fun q hq => absurd hq (by simp)) p hp
  intro st fInd hst
  exact foldl_preserve _ (splitStep imp X y base fInd)
    (fun st2 v h2 => splitStep_preserve imp X y base fInd st2 v h2) _ st hst

/-- The fuel `X.length + 1` supplied by `train` never runs out: every accepted
split has two non-empty groups partitioning the samples, so each recursive
call strictly decreases the sample count. -/
theorem buildTree_no_fuel_exhaustion {α : Type} [LinearOrderedField α]
    (imp : List ℤ → α) (sample : List ℕ → ℕ → Bool → List ℕ) (nf : ℕ)
    (md : ℤ) :
    ∀ (fuel : ℕ) (X : List (List α)) (y : List ℤ) (d : ℕ), X.length < fuel →
      buildTree imp sample nf md fuel X y d ≠ .error .outOfFuel := by
  intro fuel
  induction fuel with
  | zero =>
    intro X y d h
    omega
  | succ f ih =>
    intro X y d h
    rw [buildTree_step]
    by_cases h0 : calculateWeightedImpurity [y] imp = 0
    · rw [if_pos h0]
      simp
    rw [if_neg h0]
    by_cases h1 : 0 ≤ md ∧ md ≤ (d : ℤ)
    · rw [if_pos h1]
      simp
    rw [if_neg h1]
    cases hs : findSplit imp sample nf X y (calculateWeightedImpurity [y] imp) with
    | none => simp
    | some s =>
      obtain ⟨hp1, hp2, hsum⟩ := findSplit_some_spec imp sample nf X y _ s hs
      have hl : s.groups.features.1.length < f := by omega
      have hr : s.groups.features.2.length < f := by omega
      have hLspec := ih s.groups.features.1 s.groups.labels.1 (d + 1) hl
      have hRspec := ih s.groups.features.2 s.groups.labels.2 (d + 1) hr
      cases hL : buildTree imp sample nf md f
          s.groups.features.1 s.groups.labels.1 (d + 1) with
      | error e =>
        rw [hL] at hLspec
        simp only [hL]
        exact hLspec
      | ok l =>
        cases hR : buildTree imp sample nf md f
            s.groups.features.2 s.groups.labels.2 (d + 1) with
        | error e =>
          rw [hR] at hRspec
          simp only [hL, hR]
          exact hRspec
        | ok r =>
          simp only [hL, hR]
          simp

/-- C4: whenever findSplit returns a split candidate, both of the candidate's
sample groups are non-empty. -/
theorem c4_split_groups_nonempty {α : Type} [LinearOrderedField α]
    (imp : List ℤ → α) (sample : List ℕ → ℕ → Bool → List ℕ) (nf : ℕ)
    (X : List (List α)) (y : List ℤ) (base : α) (s : DataSplit α)
    (h : findSplit imp sample nf X y base = some s) :
    0 < s.groups.features.1.length ∧ 0 < s.groups.features.2.length :=
  ⟨(findSplit_some_spec imp sample nf X y base s h).1,
   (findSplit_some_spec imp sample nf X y base s h).2.1⟩

unseal Rat.add Rat.mul Rat.inv Rat.sub in
/-- Witness for C4 at a concrete two-sample split. -/
theorem c4_split_groups_nonempty_witness :
    0 < ((⟨0, 1 / 2, ⟨([0], [1]), ([[0]], [[1]]), ([0], [1])⟩⟩ :
        DataSplit ℚ)).groups.features.1.length ∧
    0 < ((⟨0, 1 / 2, ⟨([0], [1]), ([[0]], [[1]]), ([0], [1])⟩⟩ :
        DataSplit ℚ)).groups.features.2.length :=
  c4_split_groups_nonempty (gini (α := ℚ)) sampleTake 1 [[0], [1]] [0, 1]
    (1 / 2) ⟨0, 1 / 2, ⟨([0], [1]), ([[0]], [[1]]), ([0], [1])⟩⟩ (by decide)

theorem splitValuesOf_length {α : Type} [LinearOrderedField α] (v : List α) :
    (splitValuesOf v).length = v.length - 1 := by
  simp only [splitValuesOf, scale, arraySum, List.length_map,
    List.length_zipWith, List.length_drop, List.length_dropLast]
  omega

theorem splitValuesOf_getD {α : Type} [LinearOrderedField α] (v : List α)
    (i : ℕ) (h : i + 1 < v.length) :
    (splitValuesOf v).getD i 0 = (v.getD i 0 + v.getD (i + 1) 0) / 2 := by
  have hlen : i < (splitValuesOf v).length := by
    rw [splitValuesOf_length]
    omega
  have h0 : i < v.length := by omega
  rw [List.getD_eq_getElem _ _ hlen, List.getD_eq_getElem _ _ h0,
    List.getD_eq_getElem _ _ h]
  simp only [splitValuesOf, scale, arraySum, List.getElem_map,
    List.getElem_zipWith, List.getElem_drop, List.getElem_dropLast]
  simp only [Nat.add_comm 1 i]
  ring

theorem sortedUniqueValues_sorted {α : Type} [LinearOrderedField α]
    (column : List α) : List.Sorted (· < ·) (sortedUniqueValues column) := by
  have hs : List.Sorted (fun a b => a ≤ b) (sortedUniqueValues column) :=
    List.sorted_insertionSort _ _
  have hn : (sortedUniqueValues column).Nodup :=
    ((List.perm_insertionSort _ _).nodup_iff).2 (nodup_unique column)
  exact List.Sorted.lt_of_le hs hn

theorem sortedUniqueValues_mem {α : Type} [LinearOrderedField α]
    (column : List α) (a : α) :
    a ∈ sortedUniqueValues column ↔ a ∈ column := by
  rw [sortedUniqueValues, List.Perm.mem_iff (List.perm_insertionSort _ _),
    mem_unique]

theorem splitValuesOf_sorted {α : Type} [LinearOrderedField α]
    (column : List α) :
    List.Sorted (· < ·) (splitValuesOf (sortedUniqueValues column)) := by
  refine List.pairwise_iff_getElem.2 ?_
  intro i j hi hj hij
  have hlen := splitValuesOf_length (sortedUniqueValues column)
  have hi1 : i + 1 < (sortedUniqueValues column).length := by omega
  have hj1 : j + 1 < (sortedUniqueValues column).length := by omega
  have e1 : (splitValuesOf (sortedUniqueValues column))[i] =
      ((sortedUniqueValues column).getD i 0 +
        (sortedUniqueValues column).getD (i + 1) 0) / 2 := by
    rw [← List.getD_eq_getElem _ 0 hi]
    exact splitValuesOf_getD _ i hi1
  have e2 : (splitValuesOf (sortedUniqueValues column))[j] =
      ((sortedUniqueValues column).getD j 0 +
        (sortedUniqueValues column).getD (j + 1) 0) / 2 := by
    rw [← List.getD_eq_getElem _ 0 hj]
    exact splitValuesOf_getD _ j hj1
  have hvp := List.pairwise_iff_getElem.1 (sortedUniqueValues_sorted column)
  have a1 : (sortedUniqueValues column).getD i 0 <
      (sortedUniqueValues column).getD j 0 := by
    rw [List.getD_eq_getElem _ _ (by omega), List.getD_eq_getElem _ _ (by omega)]
    exact hvp i j (by omega) (by omega) hij
  have a2 : (sortedUniqueValues column).getD (i + 1) 0 <
      (sortedUniqueValues column).getD (j + 1) 0 := by
    rw [List.getD_eq_getElem _ _ hi1, List.getD_eq_getElem _ _ hj1]
    exact hvp (i + 1) (j + 1) hi1 hj1 (by omega)
  rw [e1, e2]
  linarith

/-- C5: for each feature, the candidate thresholds are exactly the midpoints
between consecutive distinct sorted values of that feature among the node's
samples, in ascending order: the sorted distinct value list has the feature's
values as elements, is strictly ascending, a list of k distinct values yields
k - 1 thresholds, threshold i is the midpoint between values i and i + 1, the
thresholds are in ascending order, and one distinct value yields none. -/
theorem c5_candidate_thresholds {α : Type} [LinearOrderedField α]
    (column : List α) :
    List.Sorted (· < ·) (sortedUniqueValues column) ∧
    (∀ a, a ∈ sortedUniqueValues column ↔ a ∈ column) ∧
    (splitValuesOf (sortedUniqueValues column)).length =
      (sortedUniqueValues column).length - 1 ∧
    (∀ i, i + 1 < (sortedUniqueValues column).length →
      (splitValuesOf (sortedUniqueValues column)).getD i 0 =
        ((sortedUniqueValues column).getD i 0 +
          (sortedUniqueValues column).getD (i + 1) 0) / 2) ∧
    List.Sorted (· < ·) (splitValuesOf (sortedUniqueValues column)) ∧
    ((sortedUniqueValues column).length = 1 →
      splitValuesOf (sortedUniqueValues column) = []) := by
  refine ⟨sortedUniqueValues_sorted column, sortedUniqueValues_mem column,
    splitValuesOf_length _, fun i h => splitValuesOf_getD _ i h,
    splitValuesOf_sorted column, fun h1 => ?_⟩
  have h2 := splitValuesOf_length (sortedUniqueValues column)
  rw [h1] at h2
  exact List.length_eq_zero.1 (by omega)

unseal Rat.add Rat.mul Rat.inv Rat.sub in
/-- Witness for C5 at the feature column [2, 1, 3]. -/
theorem c5_candidate_thresholds_witness :
    (splitValuesOf (sortedUniqueValues [(2 : ℚ), 1, 3])).getD 0 0 =
      ((sortedUniqueValues [(2 : ℚ), 1, 3]).getD 0 0 +
        (sortedUniqueValues [(2 : ℚ), 1, 3]).getD 1 0) / 2 ∧
    List.Sorted (· < ·) (splitValuesOf (sortedUniqueValues [(2 : ℚ), 1, 3])) :=
  ⟨(c5_candidate_thresholds [(2 : ℚ), 1, 3]).2.2.2.1 0 (by decide),
   (c5_candidate_thresholds [(2 : ℚ), 1, 3]).2.2.2.2.1⟩

unseal Rat.add Rat.mul Rat.inv Rat.sub in
/-- C3: training a DecisionTree with criterion gini and maxDepth -1 on
X = [[0], [1], [2], [3]], y = [0, 0, 1, 1] produces a root internal node
splitting on feature 0 at threshold 3/2 with two pure leaves predicting 0
(left) and 1 (right), and predict([[0.5], [2.5]]) returns [0, 1].  The
statement holds for every sampler that returns the only admissible draw [0]
when asked for 1 of the 1 available features. -/
theorem c3_gini_scenario (sample : List ℕ → ℕ → Bool → List ℕ)
    (h : sample [0] 1 false = [0]) :
    DecisionTree.train
        (⟨gini, NumFeaturesOpt.frac 1, -1, none, 0⟩ : DecisionTree ℚ) sample
        [[0], [1], [2], [3]] [0, 0, 1, 1] =
      (⟨gini, NumFeaturesOpt.frac 1, -1,
          some (.node (1 / 2) 0 (3 / 2) (.leaf 0 0) (.leaf 0 1)), 1⟩, none) ∧
    DecisionTree.predict
        (⟨gini, NumFeaturesOpt.frac 1, -1,
            some (.node (1 / 2) 0 (3 / 2) (.leaf 0 0) (.leaf 0 1)), 1⟩ :
          DecisionTree ℚ) [[1 / 2], [5 / 2]] = .ok [0, 1] := by
  have hfs : findSplit (gini (α := ℚ)) sample 1 [[0], [1], [2], [3]]
      [0, 0, 1, 1]
      (calculateWeightedImpurity [[(0 : ℤ), 0, 1, 1]] (gini (α := ℚ))) =
      some ⟨0, 3 / 2,
        ⟨([0, 1], [2, 3]), ([[0], [1]], [[2], [3]]), ([0, 0], [1, 1])⟩⟩ := by
    rw [findSplit_eq_of_sample (gini (α := ℚ)) sample sampleTake 1
      [[0], [1], [2], [3]] [0, 0, 1, 1] _ h]
    decide
  have hleft : buildTree (gini (α := ℚ)) sample 1 (-1) 4 [[0], [1]] [0, 0] 1 =
      .ok (.leaf 0 0) := by
    rw [show (4 : ℕ) = 3 + 1 from rfl, buildTree_step, if_pos (by decide)]
    decide
  have hright : buildTree (gini (α := ℚ)) sample 1 (-1) 4 [[2], [3]] [1, 1] 1 =
      .ok (.leaf 0 1) := by
    rw [show (4 : ℕ) = 3 + 1 from rfl, buildTree_step, if_pos (by decide)]
    decide
  have hbt : buildTree (gini (α := ℚ)) sample 1 (-1) 5 [[0], [1], [2], [3]]
      [0, 0, 1, 1] 0 = .ok (.node (1 / 2) 0 (3 / 2) (.leaf 0 0) (.leaf 0 1)) := by
    rw [show (5 : ℕ) = 4 + 1 from rfl]
    have hn := buildTree_eq_of_split (gini (α := ℚ)) sample 1 (-1) 4
      [[0], [1], [2], [3]] [0, 0, 1, 1] 0
      ⟨0, 3 / 2, ⟨([0, 1], [2, 3]), ([[0], [1]], [[2], [3]]), ([0, 0], [1, 1])⟩⟩
      (.leaf 0 0) (.leaf 0 1) (by decide) (by decide) hfs hleft hright
    rw [hn]
    decide
  refine ⟨?_, by decide⟩
  exact DecisionTree.train_eq_of_buildTree
    (⟨gini, NumFeaturesOpt.frac 1, -1, none, 0⟩ : DecisionTree ℚ) sample
    [[0], [1], [2], [3]] [0, 0, 1, 1]
    (.node (1 / 2) 0 (3 / 2) (.leaf 0 0) (.leaf 0 1)) rfl hbt

unseal Rat.add Rat.mul Rat.inv Rat.sub in
/-- Witness for C3 at the deterministic sampler. -/
theorem c3_gini_scenario_witness :
    DecisionTree.train
        (⟨gini, NumFeaturesOpt.frac 1, -1, none, 0⟩ : DecisionTree ℚ)
        sampleTake [[0], [1], [2], [3]] [0, 0, 1, 1] =
      (⟨gini, NumFeaturesOpt.frac 1, -1,
          some (.node (1 / 2) 0 (3 / 2) (.leaf 0 0) (.leaf 0 1)), 1⟩, none) ∧
    DecisionTree.predict
        (⟨gini, NumFeaturesOpt.frac 1, -1,
            some (.node (1 / 2) 0 (3 / 2) (.leaf 0 0) (.leaf 0 1)), 1⟩ :
          DecisionTree ℚ) [[1 / 2], [5 / 2]] = .ok [0, 1] :=
  c3_gini_scenario sampleTake (by decide)

end Jsmlt
